import Mathlib

/-!
Verification of the todo repository abstraction of hiroyuki-toybox/my-todo.

The development shallowly embeds the two backends of
src/src/repositories/todo.rs:

* the in-memory backend (a HashMap from id to Todo behind a RwLock); its
  store is modelled as an association list whose list order is a modelling
  artifact (the real HashMap iteration order is unspecified), while its
  key-value content is exactly the map content;
* the relational backend, modelled from the SQL statements the code issues,
  together with the table schema and identity sequence described by the spec
  (the migration files are not part of the sources).

Machine integers: ids are Rust i32 values; the in-memory id allocation
performs a usize-to-i32 cast, modelled by the twos-complement function
i32ofNat below.
-/

namespace MyTodo

/-- The persisted record, from struct Todo in repositories/todo.rs. -/
structure Todo where
  id : Int
  text : String
  completed : Bool
deriving Repr, DecidableEq

/-- Input for creation, from struct CreateTodo in repositories/todo.rs. -/
structure CreateTodo where
  text : String
deriving Repr, DecidableEq

/-- Input for partial update, from struct UpdateTodo in repositories/todo.rs:
both fields optional. -/
structure UpdateTodo where
  text : Option String
  completed : Option Bool
deriving Repr, DecidableEq

/-- The repository error vocabulary, from enum RepositoryError of the
repositories module: NotFound(i32) and Unexpected(String). -/
inductive RepositoryError where
  | NotFound (id : Int)
  | Unexpected (detail : String)
deriving Repr, DecidableEq

/-- Todo constructor, from impl Todo fn new: completed defaults to false. -/
def Todo.new (id : Int) (text : String) : Todo :=
  ⟨id, text, false⟩

/-- Twos-complement i32 value of a natural number, modelling the Rust
cast `as i32` applied to a usize. -/
def i32ofNat (n : Nat) : Int :=
  if n % 2 ^ 32 < 2 ^ 31 then ((n % 2 ^ 32 : Nat) : Int)
  else ((n % 2 ^ 32 : Nat) : Int) - 2 ^ 32

/-- The content of the HashMap from i32 to Todo, as an association list.
The list order is a modelling artifact; only the key-value content models
the HashMap. -/
abbrev TodoDatas := List (Int × Todo)

/-- HashMap contains_key. -/
def containsKey : TodoDatas → Int → Bool
  | [], _ => false
  | p :: rest, k => p.1 == k || containsKey rest k

/-- HashMap get. -/
def hmGet : TodoDatas → Int → Option Todo
  | [], _ => none
  | p :: rest, k => if p.1 == k then some p.2 else hmGet rest k

/-- Replace the value stored at key k, keeping the position. -/
def replaceKey (st : TodoDatas) (k : Int) (v : Todo) : TodoDatas :=
  st.map (fun p => if p.1 == k then (k, v) else p)

/-- HashMap insert: replaces the value when the key is present, otherwise
adds the binding (appended; position is a modelling artifact). -/
def hmInsert (st : TodoDatas) (k : Int) (v : Todo) : TodoDatas :=
  if containsKey st k then replaceKey st k v else st ++ [(k, v)]

/-- HashMap remove. -/
def removeKey (st : TodoDatas) (k : Int) : TodoDatas :=
  st.filter (fun p => !(p.1 == k))

/-- HashMap values. -/
def hmValues (st : TodoDatas) : List Todo :=
  st.map Prod.snd

/-! ### The in-memory backend, impl TodoRepository for TodoRepositoryForMemory -/

/-- create (todo.rs lines 87-93): id is `(store.len() + 1) as i32`, the new
record has completed = false, and is inserted at that id. Never errs. -/
def memCreate (store : TodoDatas) (payload : CreateTodo) : TodoDatas × Todo :=
  let id := i32ofNat (store.length + 1)
  let todo := Todo.new id payload.text
  (hmInsert store id todo, todo)

/-- find (todo.rs lines 94-102): clone of the stored record, or NotFound. -/
def memFind (store : TodoDatas) (id : Int) : Except RepositoryError Todo :=
  match hmGet store id with
  | some t => .ok t
  | none => .error (.NotFound id)

/-- all (todo.rs lines 103-106): the values of the map. The Rust code
iterates a HashMap, whose order is unspecified; the list order here is the
modelling artifact of TodoDatas. -/
def memAll (store : TodoDatas) : List Todo :=
  hmValues store

/-- update (todo.rs lines 107-120): NotFound when the id is absent;
otherwise each omitted field falls back to the stored value
(unwrap_or), and the merged record is stored and returned. -/
def memUpdate (store : TodoDatas) (id : Int) (payload : UpdateTodo) :
    TodoDatas × Except RepositoryError Todo :=
  match hmGet store id with
  | none => (store, .error (.NotFound id))
  | some old =>
      let text := payload.text.getD old.text
      let completed := payload.completed.getD old.completed
      let todo : Todo := ⟨id, text, completed⟩
      (hmInsert store id todo, .ok todo)

/-- delete (todo.rs lines 121-125): remove returns the removed value or
None; None maps to NotFound and leaves the store unchanged. -/
def memDelete (store : TodoDatas) (id : Int) : TodoDatas × Except RepositoryError Unit :=
  if containsKey store id then (removeKey store id, .ok ())
  else (store, .error (.NotFound id))

/-! ### The relational backend, impl TodoRepository for TodoRepositoryForDb

The five operations are modelled from the SQL statements the code issues.
Modelled from the spec: the migration files defining the table are not in
the sources; per spec section 6 the table is
todos(id integer primary key generated, text varchar(100) not null,
completed boolean not null default false), so ids come from an identity
sequence handing out 1, 2, ... and never reusing a value (spec section 4.3),
text values longer than 100 characters are rejected by varchar(100), and a
NULL text is rejected by the not-null constraint. Database-level failures
carry a detail string; the exact text produced by the driver is modelled by
the two constants below. -/

/-- State of the relational backend: the rows of the todos table, keyed by
id, and the next value of the identity sequence. -/
structure DbState where
  rows : List (Int × Todo)
  nextId : Int
deriving Repr, DecidableEq

/-- The empty database: no rows, sequence at 1. -/
def DbState.init : DbState := ⟨[], 1⟩

/-- Modelled detail string of the not-null violation raised when NULL is
bound for the text column. -/
def notNullViolation : String :=
  "null value in column text violates not-null constraint"

/-- Modelled detail string of the length violation raised when a text value
longer than 100 characters is bound for the varchar(100) column. -/
def valueTooLong : String :=
  "value too long for type character varying(100)"

/-- db create (todo.rs lines 141-154): insert with completed = false,
returning the new row; the id comes from the identity sequence. An
over-long text is rejected by varchar(100) with an Unexpected error. -/
def dbCreate (db : DbState) (payload : CreateTodo) : DbState × Except RepositoryError Todo :=
  if payload.text.length > 100 then
    (db, .error (.Unexpected valueTooLong))
  else
    let todo : Todo := ⟨db.nextId, payload.text, false⟩
    (⟨db.rows ++ [(db.nextId, todo)], db.nextId + 1⟩, .ok todo)

/-- db find (todo.rs lines 155-170): select by id with fetch_one; zero rows
is RowNotFound, mapped to NotFound. -/
def dbFind (db : DbState) (id : Int) : Except RepositoryError Todo :=
  match hmGet db.rows id with
  | some t => .ok t
  | none => .error (.NotFound id)

/-- Insertion into a list sorted by id descending. -/
def insertDesc (x : Int × Todo) : List (Int × Todo) → List (Int × Todo)
  | [] => [x]
  | y :: ys => if y.1 ≤ x.1 then x :: y :: ys else y :: insertDesc x ys

/-- Insertion sort by id descending, modelling `order by id desc`. -/
def sortByIdDesc : List (Int × Todo) → List (Int × Todo)
  | [] => []
  | x :: xs => insertDesc x (sortByIdDesc xs)

/-- db all (todo.rs lines 171-182): select all rows ordered by id
descending. -/
def dbAll (db : DbState) : List Todo :=
  (sortByIdDesc db.rows).map Prod.snd

/-- db update (todo.rs lines 183-203): first a find to obtain the fallback
for completed; then `update todos set text=$1, completed=$2 where id=$3
returning *`, binding the optional text directly: an absent text binds NULL,
which the not-null column rejects, and an over-long text is rejected by
varchar(100); otherwise the row is rewritten in place and returned. -/
def dbUpdate (db : DbState) (id : Int) (payload : UpdateTodo) :
    DbState × Except RepositoryError Todo :=
  match dbFind db id with
  | .error e => (db, .error e)
  | .ok old =>
    match payload.text with
    | none => (db, .error (.Unexpected notNullViolation))
    | some t =>
      if t.length > 100 then (db, .error (.Unexpected valueTooLong))
      else
        let todo : Todo := ⟨id, t, payload.completed.getD old.completed⟩
        (⟨replaceKey db.rows id todo, db.nextId⟩, .ok todo)

/-- db delete (todo.rs lines 204-219): `delete from todos where id=$1` run
with execute. A DELETE affecting zero rows is a successful statement (the
sqlx RowNotFound error arises only from fetch_one), so the NotFound mapping
arm in the code is dead and delete always succeeds. -/
def dbDelete (db : DbState) (id : Int) : DbState × Except RepositoryError Unit :=
  (⟨removeKey db.rows id, db.nextId⟩, .ok ())

/-! ### Operation sequences over either backend -/

/-- One call of the five-operation repository contract. -/
inductive Op where
  | create (payload : CreateTodo)
  | find (id : Int)
  | all
  | update (id : Int) (payload : UpdateTodo)
  | delete (id : Int)
deriving Repr, DecidableEq

/-- The value an operation returns to the caller. -/
inductive Output where
  | todo (t : Todo)
  | todos (ts : List Todo)
  | done
  | err (e : RepositoryError)
deriving Repr, DecidableEq

/-- View a Todo result as an Output. -/
def outT : Except RepositoryError Todo → Output
  | .ok t => .todo t
  | .error e => .err e

/-- View a Unit result as an Output. -/
def outU : Except RepositoryError Unit → Output
  | .ok _ => .done
  | .error e => .err e

/-- One step of the in-memory backend. -/
def memStep (st : TodoDatas) : Op → TodoDatas × Output
  | .create p => ((memCreate st p).1, .todo (memCreate st p).2)
  | .find id => (st, outT (memFind st id))
  | .all => (st, .todos (memAll st))
  | .update id p => ((memUpdate st id p).1, outT (memUpdate st id p).2)
  | .delete id => ((memDelete st id).1, outU (memDelete st id).2)

/-- One step of the relational backend. -/
def dbStep (db : DbState) : Op → DbState × Output
  | .create p => ((dbCreate db p).1, outT (dbCreate db p).2)
  | .find id => (db, outT (dbFind db id))
  | .all => (db, .todos (dbAll db))
  | .update id p => ((dbUpdate db id p).1, outT (dbUpdate db id p).2)
  | .delete id => ((dbDelete db id).1, outU (dbDelete db id).2)

/-- Run a sequence of operations on the in-memory backend, collecting the
final store and the outputs in order. -/
def memRun (st : TodoDatas) : List Op → TodoDatas × List Output
  | [] => (st, [])
  | op :: ops =>
    ((memRun (memStep st op).1 ops).1,
      (memStep st op).2 :: (memRun (memStep st op).1 ops).2)

/-- Run a sequence of operations on the relational backend. -/
def dbRun (db : DbState) : List Op → DbState × List Output
  | [] => (db, [])
  | op :: ops =>
    ((dbRun (dbStep db op).1 ops).1,
      (dbStep db op).2 :: (dbRun (dbStep db op).1 ops).2)

/-! ### Trace conditions and the output equivalence used to compare backends -/

/-- Whether an operation is a create. -/
def Op.isCreate : Op → Bool
  | .create _ => true
  | _ => false

/-- The payload of the operation is structurally valid for the relational
schema: create and update texts are at most 100 characters, and the update
payload includes a text. -/
def payloadOk : Op → Bool
  | .create p => p.text.length ≤ 100
  | .update _ p =>
      match p.text with
      | some t => t.length ≤ 100
      | none => false
  | _ => true

/-- Every payload of the sequence is structurally valid. -/
def payloadsOk (ops : List Op) : Bool := ops.all payloadOk

/-- No create occurs after a delete; the flag records whether a delete has
already occurred. -/
def noCreateAfterDelete : Bool → List Op → Bool
  | _, [] => true
  | del, Op.create _ :: ops => !del && noCreateAfterDelete del ops
  | _, Op.delete _ :: ops => noCreateAfterDelete true ops
  | del, _ :: ops => noCreateAfterDelete del ops

/-- Every delete of the sequence, run on the in-memory backend from the
given store, targets an id that is present at that moment. -/
def deletesPresent : TodoDatas → List Op → Bool
  | _, [] => true
  | st, op :: ops =>
      (match op with
        | Op.delete id => containsKey st id
        | _ => true) && deletesPresent (memStep st op).1 ops

/-- The keys of the in-memory store are 1, 2, ..., length, in list order;
this holds before any delete has occurred. -/
def keysCanonical (st : TodoDatas) : Prop :=
  st.map Prod.fst = (List.range st.length).map (fun (i : Nat) => (i : Int) + 1)

/-- Every stored pair has its key equal to the id field of its record. -/
def KeysMatch (st : TodoDatas) : Prop :=
  ∀ p ∈ st, p.1 = p.2.id

/-- The keys of the store are pairwise distinct: exactly one stored record
per id. -/
def KeysNodup (st : TodoDatas) : Prop :=
  (st.map Prod.fst).Nodup

/-- The validation rule on CreateTodo, from the validator attributes: text
is 1 to 100 characters. -/
def CreateTodo.valid (p : CreateTodo) : Prop :=
  1 ≤ p.text.length ∧ p.text.length ≤ 100

/-- Two outputs agree: record lists are compared up to order (the HashMap
iteration order is unspecified and the relational order is id descending);
everything else is compared by equality. -/
def OutputEquiv (a b : Output) : Prop :=
  match a, b with
  | .todos xs, .todos ys => xs.Perm ys
  | a, b => a = b

/-- Pointwise output agreement of two runs. -/
def OutputsEquiv : List Output → List Output → Prop :=
  List.Forall₂ OutputEquiv

/-! ### Helper lemmas -/

theorem outputEquiv_refl (a : Output) : OutputEquiv a a := by
  cases a with
  | todos ts => exact List.Perm.refl ts
  | todo t => rfl
  | done => rfl
  | err e => rfl

theorem i32ofNat_small (n : Nat) (h : n < 2 ^ 31) : i32ofNat n = n := by
  have h32 : n < 2 ^ 32 := lt_trans h (by norm_num)
  unfold i32ofNat
  rw [Nat.mod_eq_of_lt h32, if_pos h]

theorem hmInsert_of_not_contains (st : TodoDatas) (k : Int) (v : Todo)
    (h : containsKey st k = false) : hmInsert st k v = st ++ [(k, v)] := by
  simp [hmInsert, h]

theorem hmInsert_of_contains (st : TodoDatas) (k : Int) (v : Todo)
    (h : containsKey st k = true) : hmInsert st k v = replaceKey st k v := by
  simp [hmInsert, h]

theorem map_fst_replaceKey (k : Int) (v : Todo) :
    ∀ st : TodoDatas, (replaceKey st k v).map Prod.fst = st.map Prod.fst := by
  intro st
  induction st with
  | nil => rfl
  | cons p rest ih =>
    by_cases h : p.1 = k
    · simpa [replaceKey, h] using ih
    · simpa [replaceKey, h] using ih

theorem length_replaceKey (st : TodoDatas) (k : Int) (v : Todo) :
    (replaceKey st k v).length = st.length := by
  simp [replaceKey]

theorem containsKey_eq_true_iff : ∀ (st : TodoDatas) (k : Int),
    containsKey st k = true ↔ k ∈ st.map Prod.fst
  | [], k => by simp [containsKey]
  | p :: rest, k => by
    simp only [containsKey, Bool.or_eq_true, beq_iff_eq, List.map_cons, List.mem_cons,
      containsKey_eq_true_iff rest k]
    exact or_congr_left eq_comm

theorem containsKey_eq_isSome : ∀ (st : TodoDatas) (k : Int),
    containsKey st k = (hmGet st k).isSome
  | [], _ => rfl
  | p :: rest, k => by
    by_cases h : p.1 = k <;>
      simp [containsKey, hmGet, h, containsKey_eq_isSome rest k]

theorem not_containsKey_succ (st : TodoDatas) (h : keysCanonical st) :
    containsKey st ((st.length : Int) + 1) = false := by
  rw [Bool.eq_false_iff]
  intro hc
  rw [containsKey_eq_true_iff, h] at hc
  obtain ⟨i, hi, he⟩ := List.mem_map.1 hc
  rw [List.mem_range] at hi
  omega

theorem hmGet_replaceKey_self (k : Int) (v : Todo) :
    ∀ st : TodoDatas, containsKey st k = true →
      hmGet (replaceKey st k v) k = some v
  | [], h => by simp [containsKey] at h
  | p :: rest, h => by
    by_cases hp : p.1 = k
    · simp [replaceKey, hmGet, hp]
    · have h' : containsKey rest k = true := by
        simpa [containsKey, hp] using h
      simpa [replaceKey, hmGet, hp] using hmGet_replaceKey_self k v rest h'

theorem hmGet_append_single_self (k : Int) (v : Todo) :
    ∀ st : TodoDatas, containsKey st k = false →
      hmGet (st ++ [(k, v)]) k = some v
  | [], _ => by simp [hmGet]
  | p :: rest, h => by
    have hp : (p.1 == k) = false := by
      cases hb : (p.1 == k) <;> simp_all [containsKey]
    have h' : containsKey rest k = false := by
      simpa [containsKey, hp] using h
    simpa [hmGet, hp] using hmGet_append_single_self k v rest h'

theorem hmGet_hmInsert_self (st : TodoDatas) (k : Int) (v : Todo) :
    hmGet (hmInsert st k v) k = some v := by
  cases hc : containsKey st k with
  | true => rw [hmInsert_of_contains st k v hc]; exact hmGet_replaceKey_self k v st hc
  | false => rw [hmInsert_of_not_contains st k v hc]; exact hmGet_append_single_self k v st hc

theorem containsKey_removeKey_self : ∀ (st : TodoDatas) (k : Int),
    containsKey (removeKey st k) k = false
  | [], _ => rfl
  | p :: rest, k => by
    by_cases hp : p.1 = k
    · simpa [removeKey, hp] using containsKey_removeKey_self rest k
    · simpa [removeKey, containsKey, hp] using containsKey_removeKey_self rest k

theorem length_removeKey_le (st : TodoDatas) (k : Int) :
    (removeKey st k).length ≤ st.length :=
  List.length_filter_le _ st

theorem insertDesc_perm (x : Int × Todo) : ∀ l, (insertDesc x l).Perm (x :: l)
  | [] => List.Perm.refl _
  | y :: ys => by
    by_cases h : y.1 ≤ x.1
    · rw [insertDesc, if_pos h]
    · rw [insertDesc, if_neg h]
      exact ((insertDesc_perm x ys).cons y).trans (List.Perm.swap x y ys)

theorem sortByIdDesc_perm : ∀ l, (sortByIdDesc l).Perm l
  | [] => List.Perm.refl _
  | x :: xs =>
    (insertDesc_perm x (sortByIdDesc xs)).trans ((sortByIdDesc_perm xs).cons x)

theorem memRun_cons (st : TodoDatas) (op : Op) (ops : List Op) :
    memRun st (op :: ops) =
      ((memRun (memStep st op).1 ops).1,
        (memStep st op).2 :: (memRun (memStep st op).1 ops).2) := rfl

theorem dbRun_cons (db : DbState) (op : Op) (ops : List Op) :
    dbRun db (op :: ops) =
      ((dbRun (dbStep db op).1 ops).1,
        (dbStep db op).2 :: (dbRun (dbStep db op).1 ops).2) := rfl

/-- Simulation between the two backends. The flag records whether a delete
has already occurred; before that point the relational identity sequence
equals the in-memory size plus one and the in-memory keys are canonical. -/
theorem run_equiv : ∀ (ops : List Op) (mem : TodoDatas) (db : DbState) (del : Bool),
    db.rows = mem →
    (del = false → db.nextId = (mem.length : Int) + 1 ∧ keysCanonical mem) →
    mem.length + ops.length < 2 ^ 31 →
    payloadsOk ops = true →
    noCreateAfterDelete del ops = true →
    deletesPresent mem ops = true →
    OutputsEquiv (memRun mem ops).2 (dbRun db ops).2
  | [], _, _, _, _, _, _, _, _, _ => List.Forall₂.nil
  | op :: ops, mem, db, del, hrows, hsync, hlen, hpay, hnocad, hdel => by
    rw [memRun_cons, dbRun_cons]
    have hlen' : mem.length + ops.length < 2 ^ 31 := by
      simp only [List.length_cons] at hlen; omega
    have hpay1 : payloadOk op = true ∧ payloadsOk ops = true := by
      simpa [payloadsOk, List.all_cons, Bool.and_eq_true] using hpay
    cases op with
    | find id =>
      refine List.Forall₂.cons ?_ ?_
      · subst hrows
        exact outputEquiv_refl _
      · exact run_equiv ops mem db del hrows hsync hlen' hpay1.2 hnocad hdel
    | all =>
      refine List.Forall₂.cons ?_ ?_
      · show (memAll mem).Perm (dbAll db)
        rw [memAll, hmValues, dbAll, hrows]
        exact (List.Perm.map Prod.snd (sortByIdDesc_perm mem)).symm
      · exact run_equiv ops mem db del hrows hsync hlen' hpay1.2 hnocad hdel
    | create p =>
      have hdf : del = false := by
        cases del
        · rfl
        · simp [noCreateAfterDelete] at hnocad
      subst hdf
      have hnocad' : noCreateAfterDelete false ops = true := by
        simpa [noCreateAfterDelete] using hnocad
      obtain ⟨hnext, hcan⟩ := hsync rfl
      have hp100 : p.text.length ≤ 100 := by
        simpa [payloadOk, decide_eq_true_eq] using hpay1.1
      have hlen1 : mem.length + 1 < 2 ^ 31 := by
        simp only [List.length_cons] at hlen; omega
      have hid : i32ofNat (mem.length + 1) = (mem.length : Int) + 1 := by
        rw [i32ofNat_small _ hlen1]; push_cast; ring
      have hnc : containsKey mem ((mem.length : Int) + 1) = false :=
        not_containsKey_succ mem hcan
      have hmem : memStep mem (Op.create p) =
          (mem ++ [((mem.length : Int) + 1, Todo.new ((mem.length : Int) + 1) p.text)],
            Output.todo (Todo.new ((mem.length : Int) + 1) p.text)) := by
        simp only [memStep, memCreate, hid]
        rw [hmInsert_of_not_contains _ _ _ hnc]
      have hdbc : dbCreate db p =
          (⟨db.rows ++ [(db.nextId, ⟨db.nextId, p.text, false⟩)], db.nextId + 1⟩,
            .ok ⟨db.nextId, p.text, false⟩) := by
        unfold dbCreate
        rw [if_neg (by omega : ¬ p.text.length > 100)]
      have hdb : dbStep db (Op.create p) =
          (⟨db.rows ++ [(db.nextId, ⟨db.nextId, p.text, false⟩)], db.nextId + 1⟩,
            Output.todo ⟨db.nextId, p.text, false⟩) := by
        simp only [dbStep, hdbc, outT]
      have hdeltail : deletesPresent
          (mem ++ [((mem.length : Int) + 1, Todo.new ((mem.length : Int) + 1) p.text)])
          ops = true := by
        have h2 : deletesPresent (memStep mem (Op.create p)).1 ops = true := by
          simpa [deletesPresent] using hdel
        rw [hmem] at h2
        exact h2
      rw [hmem, hdb]
      refine List.Forall₂.cons ?_ ?_
      · show Output.todo (Todo.new ((mem.length : Int) + 1) p.text) =
          Output.todo ⟨db.nextId, p.text, false⟩
        rw [hnext]
        rfl
      · refine run_equiv ops
          (mem ++ [((mem.length : Int) + 1, Todo.new ((mem.length : Int) + 1) p.text)])
          ⟨db.rows ++ [(db.nextId, ⟨db.nextId, p.text, false⟩)], db.nextId + 1⟩ false
          ?_ ?_ ?_ hpay1.2 hnocad' hdeltail
        · show db.rows ++ [(db.nextId, ⟨db.nextId, p.text, false⟩)] =
            mem ++ [((mem.length : Int) + 1, Todo.new ((mem.length : Int) + 1) p.text)]
          rw [hrows, hnext]
          rfl
        · intro _
          constructor
          · show db.nextId + 1 = _
            rw [hnext]
            simp only [List.length_append, List.length_cons, List.length_nil]
            push_cast
            ring
          · show keysCanonical (mem ++ [((mem.length : Int) + 1,
              Todo.new ((mem.length : Int) + 1) p.text)])
            unfold keysCanonical
            rw [List.map_append, hcan, List.length_append]
            simp [List.range_succ]
        · simp only [List.length_append, List.length_cons, List.length_nil] at hlen ⊢
          omega
    | update id p =>
      rcases p with ⟨pt, pc⟩
      cases pt with
      | none =>
        exfalso
        simp [payloadOk] at hpay1
      | some t =>
        have ht100 : t.length ≤ 100 := by
          simpa [payloadOk, decide_eq_true_eq] using hpay1.1
        cases hget : hmGet mem id with
        | none =>
          have hmem : memStep mem (Op.update id ⟨some t, pc⟩) =
              (mem, Output.err (.NotFound id)) := by
            simp only [memStep, memUpdate, hget, outT]
          have hfind : dbFind db id = .error (.NotFound id) := by
            simp only [dbFind, hrows, hget]
          have hdb : dbStep db (Op.update id ⟨some t, pc⟩) =
              (db, Output.err (.NotFound id)) := by
            simp only [dbStep, dbUpdate, hfind, outT]
          have hdeltail : deletesPresent mem ops = true := by
            have h2 : deletesPresent (memStep mem (Op.update id ⟨some t, pc⟩)).1 ops = true := by
              simpa [deletesPresent] using hdel
            rw [hmem] at h2
            exact h2
          rw [hmem, hdb]
          exact List.Forall₂.cons rfl
            (run_equiv ops mem db del hrows hsync hlen' hpay1.2 hnocad hdeltail)
        | some old =>
          have hck : containsKey mem id = true := by
            rw [containsKey_eq_isSome, hget]
            rfl
          have hmu : memUpdate mem id ⟨some t, pc⟩ =
              (replaceKey mem id ⟨id, t, pc.getD old.completed⟩,
                .ok ⟨id, t, pc.getD old.completed⟩) := by
            simp only [memUpdate, hget, Option.getD_some]
            rw [hmInsert_of_contains _ _ _ hck]
          have hmem : memStep mem (Op.update id ⟨some t, pc⟩) =
              (replaceKey mem id ⟨id, t, pc.getD old.completed⟩,
                Output.todo ⟨id, t, pc.getD old.completed⟩) := by
            simp only [memStep, hmu, outT]
          have hfind : dbFind db id = .ok old := by
            simp only [dbFind, hrows, hget]
          have hdbu : dbUpdate db id ⟨some t, pc⟩ =
              (⟨replaceKey db.rows id ⟨id, t, pc.getD old.completed⟩, db.nextId⟩,
                .ok ⟨id, t, pc.getD old.completed⟩) := by
            simp only [dbUpdate, hfind]
            rw [if_neg (by omega : ¬ t.length > 100)]
          have hdb : dbStep db (Op.update id ⟨some t, pc⟩) =
              (⟨replaceKey db.rows id ⟨id, t, pc.getD old.completed⟩, db.nextId⟩,
                Output.todo ⟨id, t, pc.getD old.completed⟩) := by
            simp only [dbStep, hdbu, outT]
          have hdeltail : deletesPresent
              (replaceKey mem id ⟨id, t, pc.getD old.completed⟩) ops = true := by
            have h2 : deletesPresent (memStep mem (Op.update id ⟨some t, pc⟩)).1 ops = true := by
              simpa [deletesPresent] using hdel
            rw [hmem] at h2
            exact h2
          rw [hmem, hdb]
          refine List.Forall₂.cons rfl ?_
          refine run_equiv ops (replaceKey mem id ⟨id, t, pc.getD old.completed⟩)
            ⟨replaceKey db.rows id ⟨id, t, pc.getD old.completed⟩, db.nextId⟩ del
            ?_ ?_ ?_ hpay1.2 hnocad hdeltail
          · show replaceKey db.rows id _ = replaceKey mem id _
            rw [hrows]
          · intro hd
            obtain ⟨hnext, hcan⟩ := hsync hd
            constructor
            · show db.nextId = _
              rw [hnext, length_replaceKey]
            · show keysCanonical (replaceKey mem id _)
              unfold keysCanonical
              rw [map_fst_replaceKey, length_replaceKey]
              exact hcan
          · rw [length_replaceKey]
            exact hlen'
    | delete id =>
      have hcid : containsKey mem id = true ∧
          deletesPresent (memStep mem (Op.delete id)).1 ops = true := by
        simpa [deletesPresent, Bool.and_eq_true] using hdel
      have hmd : memDelete mem id = (removeKey mem id, .ok ()) := by
        simp [memDelete, hcid.1]
      have hmem : memStep mem (Op.delete id) = (removeKey mem id, Output.done) := by
        simp only [memStep, hmd, outU]
      have hdb : dbStep db (Op.delete id) =
          (⟨removeKey db.rows id, db.nextId⟩, Output.done) := by
        simp only [dbStep, dbDelete, outU]
      have hdeltail : deletesPresent (removeKey mem id) ops = true := by
        have h2 := hcid.2
        rw [hmem] at h2
        exact h2
      rw [hmem, hdb]
      refine List.Forall₂.cons rfl ?_
      refine run_equiv ops (removeKey mem id) ⟨removeKey db.rows id, db.nextId⟩ true
        ?_ ?_ ?_ hpay1.2 ?_ hdeltail
      · show removeKey db.rows id = removeKey mem id
        rw [hrows]
      · intro h
        simp at h
      · have := length_removeKey_le mem id
        omega
      · simpa [noCreateAfterDelete] using hnocad

/-! ### Invariant preservation for the in-memory backend -/

theorem keysMatch_replaceKey (st : TodoDatas) (k : Int) (v : Todo)
    (h : KeysMatch st) (hv : v.id = k) : KeysMatch (replaceKey st k v) := by
  intro q hq
  rw [replaceKey, List.mem_map] at hq
  obtain ⟨r, hr, rfl⟩ := hq
  by_cases hrk : r.1 = k
  · simp only [hrk, beq_self_eq_true, if_true]
    exact hv.symm
  · simp only [beq_iff_eq, hrk, if_false]
    exact h r hr

theorem keysMatch_hmInsert (st : TodoDatas) (k : Int) (v : Todo)
    (h : KeysMatch st) (hv : v.id = k) : KeysMatch (hmInsert st k v) := by
  cases hc : containsKey st k with
  | true =>
    rw [hmInsert_of_contains _ _ _ hc]
    exact keysMatch_replaceKey st k v h hv
  | false =>
    rw [hmInsert_of_not_contains _ _ _ hc]
    intro q hq
    rcases List.mem_append.1 hq with hq | hq
    · exact h q hq
    · rw [List.mem_singleton] at hq
      subst hq
      exact hv.symm

theorem keysMatch_removeKey (st : TodoDatas) (k : Int)
    (h : KeysMatch st) : KeysMatch (removeKey st k) := by
  intro q hq
  exact h q (List.mem_of_mem_filter hq)

theorem keysNodup_hmInsert (st : TodoDatas) (k : Int) (v : Todo)
    (h : KeysNodup st) : KeysNodup (hmInsert st k v) := by
  cases hc : containsKey st k with
  | true =>
    rw [hmInsert_of_contains _ _ _ hc]
    unfold KeysNodup
    rw [map_fst_replaceKey]
    exact h
  | false =>
    rw [hmInsert_of_not_contains _ _ _ hc]
    unfold KeysNodup
    rw [List.map_append]
    have hk : k ∉ st.map Prod.fst := by
      intro hmem
      rw [← containsKey_eq_true_iff] at hmem
      rw [hc] at hmem
      cases hmem
    rw [List.nodup_append]
    refine ⟨h, List.nodup_singleton k, ?_⟩
    intro a ha hb
    rw [List.map_singleton, List.mem_singleton] at hb
    subst hb
    exact hk ha

theorem keysNodup_removeKey (st : TodoDatas) (k : Int)
    (h : KeysNodup st) : KeysNodup (removeKey st k) :=
  List.Nodup.sublist ((List.filter_sublist st).map Prod.fst) h

theorem keysMatch_memStep (st : TodoDatas) (op : Op)
    (h : KeysMatch st) : KeysMatch (memStep st op).1 := by
  cases op with
  | create p => exact keysMatch_hmInsert _ _ _ h rfl
  | find id => exact h
  | all => exact h
  | update id p =>
    cases hget : hmGet st id with
    | none => simp only [memStep, memUpdate, hget]; exact h
    | some old =>
      simp only [memStep, memUpdate, hget]
      exact keysMatch_hmInsert _ _ _ h rfl
  | delete id =>
    cases hc : containsKey st id with
    | true =>
      simp only [memStep, memDelete, hc, if_true]
      exact keysMatch_removeKey _ _ h
    | false =>
      simp only [memStep, memDelete, hc, if_false]
      exact h

theorem keysNodup_memStep (st : TodoDatas) (op : Op)
    (h : KeysNodup st) : KeysNodup (memStep st op).1 := by
  cases op with
  | create p => exact keysNodup_hmInsert _ _ _ h
  | find id => exact h
  | all => exact h
  | update id p =>
    cases hget : hmGet st id with
    | none => simp only [memStep, memUpdate, hget]; exact h
    | some old =>
      simp only [memStep, memUpdate, hget]
      exact keysNodup_hmInsert _ _ _ h
  | delete id =>
    cases hc : containsKey st id with
    | true =>
      simp only [memStep, memDelete, hc, if_true]
      exact keysNodup_removeKey _ _ h
    | false =>
      simp only [memStep, memDelete, hc, if_false]
      exact h

theorem keysMatch_memRun : ∀ (ops : List Op) (st : TodoDatas),
    KeysMatch st → KeysMatch (memRun st ops).1
  | [], _, h => h
  | op :: ops, st, h => keysMatch_memRun ops _ (keysMatch_memStep st op h)

theorem keysNodup_memRun : ∀ (ops : List Op) (st : TodoDatas),
    KeysNodup st → KeysNodup (memRun st ops).1
  | [], _, h => h
  | op :: ops, st, h => keysNodup_memRun ops _ (keysNodup_memStep st op h)

/-! ### Claims -/

/-- C1, counterexample: the two backends do not behave identically on every
sequence of the five operations from the empty store. On
create a, create b, delete 1, create c, the final create returns id 2 on
the in-memory backend (size-based allocation after a delete) but id 3 on
the relational backend (identity sequence), so the same operation returns
different success values. -/
theorem c1_counterexample :
    (memRun [] [Op.create ⟨"a"⟩, Op.create ⟨"b"⟩, Op.delete 1, Op.create ⟨"c"⟩]).2 =
      [Output.todo ⟨1, "a", false⟩, Output.todo ⟨2, "b", false⟩, Output.done,
        Output.todo ⟨2, "c", false⟩] ∧
    (dbRun DbState.init [Op.create ⟨"a"⟩, Op.create ⟨"b"⟩, Op.delete 1, Op.create ⟨"c"⟩]).2 =
      [Output.todo ⟨1, "a", false⟩, Output.todo ⟨2, "b", false⟩, Output.done,
        Output.todo ⟨3, "c", false⟩] ∧
    Output.todo (⟨2, "c", false⟩ : Todo) ≠ Output.todo ⟨3, "c", false⟩ :=
  ⟨by decide, by decide, by decide⟩

/-- C1 (amended): for every sequence of the five operations applied to both
backends from the empty store, in which every create and update text is at
most 100 characters, every update payload includes a text, every delete
targets a presently stored id, no create occurs after a delete, and the
sequence is shorter than 2 to the 31, each operation returns the same
success value or the same error, with the record lists returned by all
agreeing up to order; in particular both backends apply the same merge rule
for an omitted completed field. -/
theorem c1_equiv_restricted (ops : List Op)
    (hlen : ops.length < 2 ^ 31)
    (hpay : payloadsOk ops = true)
    (hnocad : noCreateAfterDelete false ops = true)
    (hdel : deletesPresent [] ops = true) :
    OutputsEquiv (memRun [] ops).2 (dbRun DbState.init ops).2 :=
  run_equiv ops [] DbState.init false rfl (fun _ => ⟨rfl, rfl⟩)
    (by simpa using hlen) hpay hnocad hdel

/-- C1 witness: a concrete conforming sequence exercising all five
operations on which the two backends agree. -/
theorem c1_equiv_restricted_witness :
    ([Op.create ⟨"a"⟩, Op.create ⟨"b"⟩, Op.all, Op.update 1 ⟨some "c", some true⟩,
        Op.find 1, Op.delete 2, Op.find 2, Op.all] : List Op).length < 2 ^ 31 ∧
    payloadsOk [Op.create ⟨"a"⟩, Op.create ⟨"b"⟩, Op.all, Op.update 1 ⟨some "c", some true⟩,
        Op.find 1, Op.delete 2, Op.find 2, Op.all] = true ∧
    noCreateAfterDelete false [Op.create ⟨"a"⟩, Op.create ⟨"b"⟩, Op.all,
        Op.update 1 ⟨some "c", some true⟩, Op.find 1, Op.delete 2, Op.find 2, Op.all] = true ∧
    deletesPresent [] [Op.create ⟨"a"⟩, Op.create ⟨"b"⟩, Op.all,
        Op.update 1 ⟨some "c", some true⟩, Op.find 1, Op.delete 2, Op.find 2, Op.all] = true ∧
    OutputsEquiv
      (memRun [] [Op.create ⟨"a"⟩, Op.create ⟨"b"⟩, Op.all, Op.update 1 ⟨some "c", some true⟩,
        Op.find 1, Op.delete 2, Op.find 2, Op.all]).2
      (dbRun DbState.init [Op.create ⟨"a"⟩, Op.create ⟨"b"⟩, Op.all,
        Op.update 1 ⟨some "c", some true⟩, Op.find 1, Op.delete 2, Op.find 2, Op.all]).2 :=
  ⟨by decide, by decide, by decide, by decide,
    c1_equiv_restricted _ (by decide) (by decide) (by decide) (by decide)⟩

/-- C2: the merge rule on partial updates. In the in-memory backend an
update with only a text sets the text and keeps the stored completed, and
an update with only a completed keeps the stored text, as the claim says.
In the relational backend the second case is broken: the code binds the
absent text as NULL, the not-null column rejects it, and the update fails
with Unexpected instead of preserving the stored text. -/
theorem c2_db_update_drops_text :
    (memUpdate [(1, ⟨1, "a", false⟩)] 1 ⟨some "t", none⟩).2 = .ok ⟨1, "t", false⟩ ∧
    (memUpdate [(1, ⟨1, "a", false⟩)] 1 ⟨some "t", none⟩).1 = [(1, ⟨1, "t", false⟩)] ∧
    (dbUpdate ⟨[(1, ⟨1, "a", false⟩)], 2⟩ 1 ⟨some "t", none⟩).2 = .ok ⟨1, "t", false⟩ ∧
    (memUpdate [(1, ⟨1, "a", false⟩)] 1 ⟨none, some true⟩).2 = .ok ⟨1, "a", true⟩ ∧
    (memUpdate [(1, ⟨1, "a", false⟩)] 1 ⟨none, some true⟩).1 = [(1, ⟨1, "a", true⟩)] ∧
    (dbUpdate ⟨[(1, ⟨1, "a", false⟩)], 2⟩ 1 ⟨none, some true⟩).2 =
      .error (.Unexpected notNullViolation) ∧
    (dbUpdate ⟨[(1, ⟨1, "a", false⟩)], 2⟩ 1 ⟨none, some true⟩).1 =
      ⟨[(1, ⟨1, "a", false⟩)], 2⟩ :=
  ⟨rfl, rfl, rfl, rfl, rfl, rfl, rfl⟩

/-- C3: failures on an absent id. find and update fail with NotFound on
both backends, and delete fails with NotFound on the in-memory backend; but
the relational delete runs its statement with execute, for which zero
affected rows is a success, so it returns ok instead of NotFound. -/
theorem c3_db_delete_missing_succeeds :
    (dbDelete DbState.init 1).2 = .ok () ∧
    (dbDelete DbState.init 1).1 = DbState.init ∧
    (memDelete [] 1).2 = .error (.NotFound 1) ∧
    memFind [] 1 = .error (.NotFound 1) ∧
    dbFind DbState.init 1 = .error (.NotFound 1) ∧
    (memUpdate [] 1 ⟨some "t", none⟩).2 = .error (.NotFound 1) ∧
    (dbUpdate DbState.init 1 ⟨some "t", none⟩).2 = .error (.NotFound 1) :=
  ⟨rfl, rfl, rfl, rfl, rfl, rfl, rfl⟩

/-- C4, counterexample: an id can be reused after a successful delete. On
create a, create b, delete 2, create c, the delete of id 2 succeeds and the
following create returns, and stores, a record with the same id 2. -/
theorem c4_counterexample :
    (memRun [] [Op.create ⟨"a"⟩, Op.create ⟨"b"⟩, Op.delete 2, Op.create ⟨"c"⟩]).2 =
      [Output.todo ⟨1, "a", false⟩, Output.todo ⟨2, "b", false⟩, Output.done,
        Output.todo ⟨2, "c", false⟩] ∧
    (memRun [] [Op.create ⟨"a"⟩, Op.create ⟨"b"⟩, Op.delete 2, Op.create ⟨"c"⟩]).1 =
      [(1, ⟨1, "a", false⟩), (2, ⟨2, "c", false⟩)] :=
  ⟨by decide, by decide⟩

/-- C4 (amended): in every reachable state of the in-memory backend there
is exactly one stored record per id (the keys of the store are pairwise
distinct); the id-reuse half of the claim is dropped, since after a
successful delete a later create can reuse the deleted id. -/
theorem c4_unique_ids (ops : List Op) : KeysNodup (memRun [] ops).1 :=
  keysNodup_memRun ops [] List.nodup_nil

/-- C6: for every valid CreateTodo payload and every store, create succeeds
returning a record with completed = false, and an immediately following
find on the returned id returns exactly the record create returned. -/
theorem c6_create_then_find (st : TodoDatas) (p : CreateTodo) (_h : p.valid) :
    (memCreate st p).2.completed = false ∧
    memFind (memCreate st p).1 (memCreate st p).2.id = .ok (memCreate st p).2 := by
  refine ⟨rfl, ?_⟩
  show memFind (hmInsert st (i32ofNat (st.length + 1))
      (Todo.new (i32ofNat (st.length + 1)) p.text)) (i32ofNat (st.length + 1)) =
    .ok (Todo.new (i32ofNat (st.length + 1)) p.text)
  unfold memFind
  rw [hmGet_hmInsert_self]

/-- C6 witness: create then find on the empty store with payload a. -/
theorem c6_create_then_find_witness :
    (⟨"a"⟩ : CreateTodo).valid ∧
    ((memCreate [] ⟨"a"⟩).2.completed = false ∧
      memFind (memCreate [] ⟨"a"⟩).1 (memCreate [] ⟨"a"⟩).2.id = .ok (memCreate [] ⟨"a"⟩).2) :=
  ⟨⟨by decide, by decide⟩, c6_create_then_find [] ⟨"a"⟩ ⟨by decide, by decide⟩⟩

/-- C7: the in-memory create assigns the new record the id
count of current entries plus one, for every store small enough that the
usize-to-i32 cast is exact (capacity exhaustion is out of scope). -/
theorem c7_id_assignment (st : TodoDatas) (p : CreateTodo)
    (h : st.length + 1 < 2 ^ 31) :
    (memCreate st p).2.id = (st.length : Int) + 1 := by
  show (Todo.new (i32ofNat (st.length + 1)) p.text).id = (st.length : Int) + 1
  rw [Todo.new]
  show i32ofNat (st.length + 1) = (st.length : Int) + 1
  rw [i32ofNat_small _ h]
  push_cast
  ring

/-- C7 witness: creating in a one-element store assigns id 2. -/
theorem c7_id_assignment_witness :
    ([(1, ⟨1, "a", false⟩)] : TodoDatas).length + 1 < 2 ^ 31 ∧
    (memCreate [(1, ⟨1, "a", false⟩)] ⟨"b"⟩).2.id =
      (([(1, (⟨1, "a", false⟩ : Todo))] : TodoDatas).length : Int) + 1 :=
  ⟨by decide, c7_id_assignment [(1, ⟨1, "a", false⟩)] ⟨"b"⟩ (by decide)⟩

/-- C8: for every id with a stored record, delete succeeds and removes the
record; a second delete of the same id fails with NotFound and leaves the
store exactly as after the first delete. -/
theorem c8_delete_twice (st : TodoDatas) (id : Int)
    (h : containsKey st id = true) :
    (memDelete st id).2 = .ok () ∧
    containsKey (memDelete st id).1 id = false ∧
    (memDelete (memDelete st id).1 id).2 = .error (.NotFound id) ∧
    (memDelete (memDelete st id).1 id).1 = (memDelete st id).1 := by
  have h1 : memDelete st id = (removeKey st id, .ok ()) := by
    simp [memDelete, h]
  have h2 : containsKey (removeKey st id) id = false :=
    containsKey_removeKey_self st id
  have h3 : memDelete (removeKey st id) id = (removeKey st id, .error (.NotFound id)) := by
    simp [memDelete, h2]
  simp [h1, h3, h2]

/-- C8 witness: deleting id 5 twice from a one-element store. -/
theorem c8_delete_twice_witness :
    containsKey [(5, ⟨5, "a", false⟩)] 5 = true ∧
    ((memDelete [(5, ⟨5, "a", false⟩)] 5).2 = .ok () ∧
      containsKey (memDelete [(5, ⟨5, "a", false⟩)] 5).1 5 = false ∧
      (memDelete (memDelete [(5, ⟨5, "a", false⟩)] 5).1 5).2 = .error (.NotFound 5) ∧
      (memDelete (memDelete [(5, ⟨5, "a", false⟩)] 5).1 5).1 =
        (memDelete [(5, ⟨5, "a", false⟩)] 5).1) :=
  ⟨by decide, c8_delete_twice [(5, ⟨5, "a", false⟩)] 5 (by decide)⟩

/-- C9: every reachable in-memory store satisfies the invariant that each
map key equals the id field of the record stored under it, and every one of
the five operations preserves the invariant from any store satisfying it. -/
theorem c9_keys_match :
    (∀ ops : List Op, KeysMatch (memRun [] ops).1) ∧
    (∀ (st : TodoDatas) (op : Op), KeysMatch st → KeysMatch (memStep st op).1) :=
  ⟨fun ops => keysMatch_memRun ops [] (fun p hp => absurd hp (List.not_mem_nil p)),
    fun st op h => keysMatch_memStep st op h⟩

/-- C9 witness: the invariant holds for a concrete store and is preserved
by a concrete delete step. -/
theorem c9_keys_match_witness :
    KeysMatch [(7, ⟨7, "x", false⟩)] ∧
    KeysMatch (memStep [(7, ⟨7, "x", false⟩)] (Op.delete 7)).1 := by
  have hm : KeysMatch [(7, (⟨7, "x", false⟩ : Todo))] := by
    intro p hp
    rw [List.mem_singleton] at hp
    subst hp
    rfl
  exact ⟨hm, c9_keys_match.2 _ (Op.delete 7) hm⟩

/-- C10: when update or delete fails with NotFound the store is unchanged,
and find and all never modify the store. -/
theorem c10_error_atomicity :
    (∀ (st : TodoDatas) (id : Int) (p : UpdateTodo),
      (memUpdate st id p).2 = .error (.NotFound id) → (memUpdate st id p).1 = st) ∧
    (∀ (st : TodoDatas) (id : Int),
      (memDelete st id).2 = .error (.NotFound id) → (memDelete st id).1 = st) ∧
    (∀ (st : TodoDatas) (id : Int), (memStep st (Op.find id)).1 = st) ∧
    (∀ st : TodoDatas, (memStep st Op.all).1 = st) := by
  refine ⟨?_, ?_, fun _ _ => rfl, fun _ => rfl⟩
  · intro st id p h
    cases hget : hmGet st id with
    | none => simp [memUpdate, hget]
    | some old => simp [memUpdate, hget] at h
  · intro st id h
    cases hc : containsKey st id with
    | true => simp [memDelete, hc] at h
    | false => simp [memDelete, hc]

/-- C10 witness: on the empty store, update and delete of id 3 fail with
NotFound and leave the store empty; find and all do not modify it. -/
theorem c10_error_atomicity_witness :
    (memUpdate [] 3 ⟨none, none⟩).2 = .error (.NotFound 3) ∧
    (memUpdate [] 3 ⟨none, none⟩).1 = [] ∧
    (memDelete [] 3).2 = .error (.NotFound 3) ∧
    (memDelete [] 3).1 = [] ∧
    (memStep [] (Op.find 3)).1 = [] ∧
    (memStep [] Op.all).1 = [] :=
  ⟨rfl, c10_error_atomicity.1 [] 3 ⟨none, none⟩ rfl, rfl,
    c10_error_atomicity.2.1 [] 3 rfl, c10_error_atomicity.2.2.1 [] 3,
    c10_error_atomicity.2.2.2 []⟩

end MyTodo
